import Mathlib

/-!
# TRIScore front-end: the event client of `App.jsx`

A shallow embedding of `src/frontend/src/App.jsx`.

* JavaScript values as they come out of a JSON response body (`JSValue`),
  strings as sequences of UTF-16 code units (`JSString`).
* The component state of `App` (`AppState`) and its setters.
* The `async` handlers (`fetchEvents`, `handleAddEvent`, `handleUpdateEvent`,
  `handleDeleteEvent`) as programs over two effects, a state setter and an
  awaited HTTP request (`Prog`), with `try`/`catch` as a combinator.
* The derived value `filteredEvents`, with the exceptions a property access or
  a method call can raise.

`console.log` / `console.error` calls and `e.preventDefault()` have no effect
on the state or on the requests issued and are left out.
-/

namespace TRIScore

/-! ## JavaScript values -/

/-- A JavaScript string, as its sequence of UTF-16 code units (each below 65536). -/
abbrev JSString := List Nat

/-- The UTF-16 code units of one Unicode scalar value. -/
def utf16Char (c : Char) : JSString :=
  if c.toNat < 65536 then [c.toNat]
  else [55296 + (c.toNat - 65536) / 1024, 56320 + (c.toNat - 65536) % 1024]

/-- The JavaScript string written by a source literal. -/
def utf16 (s : String) : JSString := s.toList.flatMap utf16Char

/-- The values a response body and the component state can hold. A number is
carried as the 64 bits of its IEEE-754 double; an object as its own properties
in enumeration order (a key occurs at most once in a parsed object, and the
first occurrence is the one read). -/
inductive JSValue where
  | undefined
  | null
  | bool (b : Bool)
  | num (bits : Nat)
  | str (s : JSString)
  | arr (xs : List JSValue)
  | obj (kvs : List (JSString × JSValue))

/-- The exceptions of the embedding: a `TypeError` raised by the language, and
the rejection of an awaited request. -/
inductive JSError where
  | typeError
  | rejection
  deriving DecidableEq

/-- The two built-ins of the engine that the source calls and that this
development does not define: `String.prototype.toLowerCase` and the `ToString`
conversion applied inside a template literal. -/
structure Runtime where
  toLowerCase : JSString → JSString
  toStr : JSValue → JSString

/-- `Array.isArray(v)`. -/
def isArray : JSValue → Bool
  | .arr _ => true
  | _ => false

/-- Whether the bits of a double are a NaN. -/
def isNaNBits (bits : Nat) : Bool :=
  (bits / 2 ^ 52) % 2 ^ 11 == 2047 && bits % 2 ^ 52 != 0

/-- JavaScript truthiness (`ToBoolean`). -/
def truthy : JSValue → Bool
  | .undefined => false
  | .null => false
  | .bool b => b
  | .num bits => !(bits % 2 ^ 63 == 0 || isNaNBits bits)
  | .str s => !s.isEmpty
  | .arr _ => true
  | .obj _ => true

/-- The own property `key` of an object, `undefined` when it has none. -/
def lookup (key : JSString) : List (JSString × JSValue) → JSValue
  | [] => .undefined
  | (k, v) :: rest => if k = key then v else lookup key rest

/-- Property read `v.key`, for a key that is neither `length`, nor an index, nor
a member of a built-in prototype (the source reads `_embedded`, `events`, `name`
and `id`): a `TypeError` on `undefined` and `null`, the own property on an
object, `undefined` on every other value. -/
def getProp (v : JSValue) (key : JSString) : Except JSError JSValue :=
  match v with
  | .undefined => .error .typeError
  | .null => .error .typeError
  | .obj kvs => .ok (lookup key kvs)
  | _ => .ok .undefined

/-- Optional chaining `v?.key`: `undefined` when `v` is `undefined` or `null`. -/
def optProp (v : JSValue) (key : JSString) : Except JSError JSValue :=
  match v with
  | .undefined => .ok .undefined
  | .null => .ok .undefined
  | _ => getProp v key

/-- The method call `v.toLowerCase()`: the built-in on a string, a `TypeError`
on every other value (`undefined.toLowerCase`, or a callee that is not a
function). -/
def callToLowerCase (rt : Runtime) : JSValue → Except JSError JSString
  | .str s => .ok (rt.toLowerCase s)
  | _ => .error .typeError

/-- `StringIndexOf(s, search, from)`: the first index, counted from `i`, at
which `search` occurs in `s`. -/
def stringIndexOf (search : JSString) : JSString → Nat → Option Nat
  | [], i => if search.isPrefixOf [] then some i else none
  | c :: rest, i =>
    if search.isPrefixOf (c :: rest) then some i else stringIndexOf search rest (i + 1)

/-- `s.includes(search)` for strings. -/
def includes (s search : JSString) : Bool :=
  (stringIndexOf search s 0).isSome

/-- `Array.prototype.filter`: the callback runs on each element in index order,
an element is kept when the callback answers true, and an exception of the
callback ends the loop. -/
def arrayFilter (callback : JSValue → Except JSError Bool) :
    List JSValue → Except JSError (List JSValue)
  | [] => .ok []
  | x :: rest => do
    let selected ← callback x
    let kept ← arrayFilter callback rest
    pure (if selected then x :: kept else kept)

def nameKey : JSString := utf16 "name"
def idKey : JSString := utf16 "id"
def embeddedKey : JSString := utf16 "_embedded"
def eventsKey : JSString := utf16 "events"

/-- The callback of `filteredEvents`:
`event.name.toLowerCase().includes(filterName.toLowerCase())`. -/
def nameMatches (rt : Runtime) (filterName : JSString) (event : JSValue) :
    Except JSError Bool := do
  let name ← getProp event nameKey
  let lowered ← callToLowerCase rt name
  pure (includes lowered (rt.toLowerCase filterName))

/-- The derived value `filteredEvents` of `App` (App.jsx, lines 86-90), for the
current `events` and `filterName`. `events.filter` on a value that is not an
array is a `TypeError`. -/
def filteredEvents (rt : Runtime) (events : JSValue) (filterName : JSString) :
    Except JSError (List JSValue) :=
  match events with
  | .arr xs => arrayFilter (nameMatches rt filterName) xs
  | _ => .error .typeError

/-! ## The filter as the specification words it -/

/-- An event whose `name` is the string `nm`. -/
def HasName (event : JSValue) (nm : JSString) : Prop :=
  ∃ kvs, event = .obj kvs ∧ lookup nameKey kvs = .str nm

/-- The string `name` of an event, when it has one. -/
def nameOf : JSValue → Option JSString
  | .obj kvs =>
    match lookup nameKey kvs with
    | .str nm => some nm
    | _ => none
  | _ => none

/-- The lower-cased name of the event contains the lower-cased filter text as
a substring. -/
def NameContains (rt : Runtime) (filterName : JSString) (event : JSValue) : Prop :=
  ∃ nm, HasName event nm ∧ rt.toLowerCase filterName <:+: rt.toLowerCase nm

/-- The decision procedure of `NameContains`. -/
def nameContains (rt : Runtime) (filterName : JSString) (event : JSValue) : Bool :=
  match nameOf event with
  | some nm => decide (rt.toLowerCase filterName <:+: rt.toLowerCase nm)
  | none => false

/-- The filtered view in the words of the specification: the events whose name
contains the filter text, in their original order. -/
def specFilteredView (rt : Runtime) (events : List JSValue) (filterName : JSString) :
    List JSValue :=
  events.filter (nameContains rt filterName)

/-- The natural number that a double holds, when it holds one below `2 ^ 53`. -/
def natOfDouble (bits : Nat) : Option Nat :=
  if bits = 0 then some 0
  else
    let e := bits / 2 ^ 52
    let m := 2 ^ 52 + bits % 2 ^ 52
    if 1023 ≤ e ∧ e ≤ 1075 ∧ m % 2 ^ (1075 - e) = 0 then some (m / 2 ^ (1075 - e)) else none

/-- A runtime for evaluating examples: lower-casing of the ASCII letters and
nothing else, and a `ToString` that is exact on strings, on the natural numbers
below `2 ^ 53`, on booleans, `null` and `undefined` (and empty elsewhere). -/
def asciiRuntime : Runtime where
  toLowerCase := fun s => s.map (fun c => if 65 ≤ c ∧ c ≤ 90 then c + 32 else c)
  toStr := fun v =>
    match v with
    | .str s => s
    | .null => utf16 "null"
    | .undefined => utf16 "undefined"
    | .bool true => utf16 "true"
    | .bool false => utf16 "false"
    | .num bits =>
      match natOfDouble bits with
      | some n => utf16 (toString n)
      | none => []
    | _ => []

/-! ## The component state of `App` -/

/-- The six `useState` cells of `App` (App.jsx, lines 8-15). -/
structure AppState where
  events : JSValue
  newEvent : JSValue
  filterName : JSString
  currentEvent : JSValue
  isUpdating : Bool
  error : Option JSString

/-- The object literal `{ name: "" }`. -/
def emptyDraft : JSValue := .obj [(nameKey, .str [])]

/-- The state of the first render. -/
def initialState : AppState where
  events := .arr []
  newEvent := emptyDraft
  filterName := []
  currentEvent := .null
  isUpdating := false
  error := none

def setEvents (v : JSValue) (s : AppState) : AppState := { s with events := v }
def setNewEvent (v : JSValue) (s : AppState) : AppState := { s with newEvent := v }
def setFilterName (v : JSString) (s : AppState) : AppState := { s with filterName := v }
def setCurrentEvent (v : JSValue) (s : AppState) : AppState := { s with currentEvent := v }
def setIsUpdating (b : Bool) (s : AppState) : AppState := { s with isUpdating := b }
def setError (msg : JSString) (s : AppState) : AppState := { s with error := some msg }

def API_URL : JSString := utf16 "http://localhost:8080/project/events"

def loadErrorMessage : JSString := utf16 "Nu s-au putut încărca evenimentele"
def addErrorMessage : JSString := utf16 "Nu s-a putut adăuga evenimentul"
def updateErrorMessage : JSString := utf16 "Nu s-a putut actualiza evenimentul"
def deleteErrorMessage : JSString := utf16 "Nu s-a putut șterge evenimentul"

/-! ## Requests and asynchronous handlers -/

/-- The four axios calls of `App`, by method, URL and body. -/
inductive Request where
  | get (url : JSString)
  | post (url : JSString) (body : JSValue)
  | put (url : JSString) (body : JSValue)
  | delete (url : JSString)

/-- How an awaited request ends: the promise resolves with a response, of
which the source reads `response.data` only, or it rejects. -/
inductive Outcome where
  | resolved (data : JSValue)
  | rejected

/-- An `async` handler: it returns, throws, calls a state setter, awaits a
request, or ends on a call of another `async` function whose promise it drops. -/
inductive Prog where
  | ret
  | throw (e : JSError)
  | set (update : AppState → AppState) (next : Prog)
  | await (req : Request) (k : Outcome → Prog)
  | detach (callee : Prog)

/-- The expression `await axios.method(...)`: a rejection is thrown at the await. -/
def awaitData (req : Request) (k : JSValue → Prog) : Prog :=
  .await req fun outcome =>
    match outcome with
    | .resolved data => k data
    | .rejected => .throw .rejection

/-- An expression that may throw, then the statements that use its value. -/
def evalThen {α : Type} (e : Except JSError α) (k : α → Prog) : Prog :=
  match e with
  | .ok a => k a
  | .error err => .throw err

/-- The statement `try { body } catch (err) { handler }`. The promise of a
callee that was not awaited is outside the reach of the `catch`. -/
def tryCatch : Prog → (JSError → Prog) → Prog
  | .ret, _ => .ret
  | .throw e, handler => handler e
  | .set update next, handler => .set update (tryCatch next handler)
  | .await req k, handler => .await req (fun outcome => tryCatch (k outcome) handler)
  | .detach callee, _ => .detach callee

/-- The condition of the `else if` of `fetchEvents` (App.jsx, line 28):
`response.data && Array.isArray(response.data._embedded?.events)`. -/
def hasEmbeddedEvents (data : JSValue) : Except JSError Bool :=
  if truthy data then do
    let embedded ← getProp data embeddedKey
    let events ← optProp embedded eventsKey
    pure (isArray events)
  else pure false

/-- The function `fetchEvents` of App.jsx, lines 21-39. -/
def fetchEvents : Prog :=
  tryCatch
    (awaitData (.get API_URL) fun data =>
      if isArray data then
        .set (setEvents data) .ret
      else
        evalThen (hasEmbeddedEvents data) fun nested =>
          if nested then
            evalThen (do let embedded ← getProp data embeddedKey; getProp embedded eventsKey)
              fun events => .set (setEvents events) .ret
          else
            .set (setEvents (.arr [])) .ret)
    (fun _ => .set (setError loadErrorMessage) (.set (setEvents (.arr [])) .ret))

/-- The own enumerable properties that an object spread `{...v}` copies. -/
def spread : JSValue → List (JSString × JSValue)
  | .obj kvs => kvs
  | .arr xs => xs.enum.map (fun p => (utf16 (toString p.1), p.2))
  | .str s => s.enum.map (fun p => (utf16 (toString p.1), .str [p.2]))
  | _ => []

/-- Writing the property `key` of an object literal under construction: the
value is replaced where the key stands, or the key is added after the others. -/
def setKey (key : JSString) (v : JSValue) : List (JSString × JSValue) → List (JSString × JSValue)
  | [] => [(key, v)]
  | (k, w) :: rest => if k = key then (k, v) :: rest else (k, w) :: setKey key v rest

/-- The function `handleInputChange` of App.jsx, lines 40-46, for the `name` and `value` of
`e.target`, in the render whose state is `s`. -/
def handleInputChange (name value : JSString) (s : AppState) : AppState :=
  setNewEvent (.obj (setKey name (.str value) (spread s.newEvent))) s

/-- The function `handleAddEvent` of App.jsx, lines 48-58, in a render whose draft is `newEvent`. -/
def handleAddEvent (newEvent : JSValue) : Prog :=
  tryCatch
    (awaitData (.post API_URL newEvent) fun _ =>
      .set (setNewEvent emptyDraft) (.detach fetchEvents))
    (fun _ => .set (setError addErrorMessage) .ret)

/-- The function `handleUpdateClick` of App.jsx, lines 60-63. -/
def handleUpdateClick (event : JSValue) (s : AppState) : AppState :=
  setIsUpdating true (setCurrentEvent event s)

/-- The template literal `${API_URL}/${id}`. -/
def itemUrl (rt : Runtime) (id : JSValue) : JSString :=
  API_URL ++ utf16 "/" ++ rt.toStr id

/-- The function `handleUpdateEvent` of App.jsx, lines 65-74, in a render whose edit buffer is
`currentEvent`. -/
def handleUpdateEvent (rt : Runtime) (currentEvent : JSValue) : Prog :=
  tryCatch
    (evalThen (getProp currentEvent idKey) fun id =>
      awaitData (.put (itemUrl rt id) currentEvent) fun _ =>
        .set (setIsUpdating false) (.detach fetchEvents))
    (fun _ => .set (setError updateErrorMessage) .ret)

/-- The function `handleDeleteEvent` of App.jsx, lines 76-84. -/
def handleDeleteEvent (rt : Runtime) (id : JSValue) : Prog :=
  tryCatch
    (awaitData (.delete (itemUrl rt id)) fun _ => .detach fetchEvents)
    (fun _ => .set (setError deleteErrorMessage) .ret)

/-- The `onChange` of the filter input (App.jsx, line 119). -/
def handleFilterChange (value : JSString) (s : AppState) : AppState :=
  setFilterName value s

/-- The `onChange` of the modal input (App.jsx, line 155). -/
def handleEditName (value : JSString) (s : AppState) : AppState :=
  setCurrentEvent (.obj (setKey nameKey (.str value) (spread s.currentEvent))) s

/-- The `onClick` of the cancel button of the modal (App.jsx, line 160). -/
def handleCancel (s : AppState) : AppState :=
  setIsUpdating false s

/-! ## Running a handler -/

/-- How a run of a handler stands: it returned, an exception escaped it, or it
is suspended on a request that has not been answered. -/
inductive Status where
  | finished
  | escaped (e : JSError)
  | pending
  deriving DecidableEq

/-- The result of a run: the state, the requests issued in order, the status. -/
structure Run where
  state : AppState
  trace : List Request
  status : Status

/-- Runs a handler from state `s`, answering its awaited requests, in the order
they are issued, with the given outcomes. -/
def run : Prog → List Outcome → AppState → List Request → Run
  | .ret, _, s, tr => ⟨s, tr, .finished⟩
  | .throw e, _, s, tr => ⟨s, tr, .escaped e⟩
  | .set update next, os, s, tr => run next os (update s) tr
  | .await req _, [], s, tr => ⟨s, tr ++ [req], .pending⟩
  | .await req k, o :: os, s, tr => run (k o) os s (tr ++ [req])
  | .detach callee, os, s, tr => run callee os s tr

/-- Whether a request is the List request, `GET` on the collection URL. -/
def isListRequest : Request → Bool
  | .get url => url == API_URL
  | _ => false

/-- The error message that the handler of a request sets when the request fails. -/
def failureMessage : Request → JSString
  | .get _ => loadErrorMessage
  | .post _ _ => addErrorMessage
  | .put _ _ => updateErrorMessage
  | .delete _ => deleteErrorMessage

/-- The result of a List response in the words of the specification: the body
when it is an array, the array under `_embedded.events` when the body is an
object that has one, the empty collection for any other shape. -/
def specListResult : JSValue → JSValue
  | .arr xs => .arr xs
  | .obj kvs =>
    match lookup embeddedKey kvs with
    | .obj nested =>
      match lookup eventsKey nested with
      | .arr xs => .arr xs
      | _ => .arr []
    | _ => .arr []
  | _ => .arr []

/-- The body is an object whose `_embedded.events` field is the array `xs`. -/
def EmbeddedEvents (body : JSValue) (xs : List JSValue) : Prop :=
  ∃ kvs nested, body = .obj kvs ∧ lookup embeddedKey kvs = .obj nested ∧
    lookup eventsKey nested = .arr xs

/-- The body is in one of the two recognised shapes. -/
def Recognised (body : JSValue) : Prop :=
  ∃ xs, body = .arr xs ∨ EmbeddedEvents body xs

/-- The state machine of the update flow. -/
inductive EditState where
  | idle
  | editing (buffer : JSValue)

/-- The state of the update flow in a component state: the modal is rendered
exactly when `isUpdating` holds, and shows `currentEvent`. -/
def editState (s : AppState) : EditState :=
  if s.isUpdating then .editing s.currentEvent else .idle

/-! ## The client as a transition system -/

/-- A request in flight, with the rest of the handler that awaits it. -/
structure Pending where
  req : Request
  k : Outcome → Prog

/-- How a handler stands at the end of a synchronous stretch. -/
inductive Sync where
  | finished
  | escaped (e : JSError)
  | suspended (p : Pending)

/-- Runs a handler until it ends or suspends on a request. -/
def exec : Prog → AppState → AppState × Sync
  | .ret, s => (s, .finished)
  | .throw e, s => (s, .escaped e)
  | .set update next, s => exec next (update s)
  | .await req k, s => (s, .suspended ⟨req, k⟩)
  | .detach callee, s => exec callee s

/-- The component state together with the requests in flight. -/
structure Client where
  app : AppState
  inflight : List Pending

/-- Starts or resumes a handler on the client: the state after its synchronous
stretch, and its request added to those in flight when it suspends. -/
def dispatch (p : Prog) (app : AppState) (inflight : List Pending) : Client :=
  match exec p app with
  | (s, .suspended pd) => ⟨s, inflight ++ [pd]⟩
  | (s, _) => ⟨s, inflight⟩

/-- The client after the mount effect (App.jsx, lines 17-19). -/
def initialClient : Client := dispatch fetchEvents initialState []

/-- What can happen to the client: the user interface events of the rendered
component, and the end of a request in flight. -/
inductive Transition where
  | inputChange (name value : JSString)
  | submit
  | filterChange (value : JSString)
  | deleteClick (event : JSValue)
  | updateClick (event : JSValue)
  | editName (value : JSString)
  | cancel
  | save
  | response (i : Nat) (outcome : Outcome)

/-- When a transition can happen: the row buttons exist for the events of the
filtered view, the modal controls while the modal is rendered, the draft input
is the one named `name`, and a response ends a request that is in flight. -/
def Enabled (rt : Runtime) (c : Client) : Transition → Prop
  | .inputChange name _ => name = nameKey
  | .submit => True
  | .filterChange _ => True
  | .deleteClick event =>
    ∃ view, filteredEvents rt c.app.events c.app.filterName = .ok view ∧ event ∈ view
  | .updateClick event =>
    ∃ view, filteredEvents rt c.app.events c.app.filterName = .ok view ∧ event ∈ view
  | .editName _ => c.app.isUpdating = true
  | .cancel => c.app.isUpdating = true
  | .save => c.app.isUpdating = true
  | .response i _ => i < c.inflight.length

/-- The client after a transition. -/
def step (rt : Runtime) (c : Client) : Transition → Client
  | .inputChange name value => { c with app := handleInputChange name value c.app }
  | .submit => dispatch (handleAddEvent c.app.newEvent) c.app c.inflight
  | .filterChange value => { c with app := handleFilterChange value c.app }
  | .deleteClick event =>
    match getProp event idKey with
    | .ok id => dispatch (handleDeleteEvent rt id) c.app c.inflight
    | .error _ => c
  | .updateClick event => { c with app := handleUpdateClick event c.app }
  | .editName value => { c with app := handleEditName value c.app }
  | .cancel => { c with app := handleCancel c.app }
  | .save => dispatch (handleUpdateEvent rt c.app.currentEvent) c.app c.inflight
  | .response i outcome =>
    match c.inflight.get? i with
    | some pd => dispatch (pd.k outcome) c.app (c.inflight.eraseIdx i)
    | none => c

/-- The clients that the mounted component can reach. -/
inductive Reachable (rt : Runtime) : Client → Prop where
  | mount : Reachable rt initialClient
  | step (c : Client) (t : Transition) :
    Reachable rt c → Enabled rt c t → Reachable rt (step rt c t)

/-! ## Sample data -/

/-- The event `{ id: 1, name: "Alpha" }`. -/
def alphaEvent : JSValue :=
  .obj [(idKey, .num 0x3FF0000000000000), (nameKey, .str (utf16 "Alpha"))]

/-- The event `{ id: 2, name: "Beta" }`. -/
def betaEvent : JSValue :=
  .obj [(idKey, .num 0x4000000000000000), (nameKey, .str (utf16 "Beta"))]

/-- The event `{ id: 3, name: "Old" }`. -/
def oldEvent : JSValue :=
  .obj [(idKey, .num 0x4008000000000000), (nameKey, .str (utf16 "Old"))]

/-- The draft `{ name: "Meetup" }`. -/
def meetupDraft : JSValue := .obj [(nameKey, .str (utf16 "Meetup"))]

/-! ## The invariant of the reachable clients -/

/-- A pending List request: its handler stores the normalised body when the
request succeeds, and the load error with the empty collection when it fails. -/
def ListPending (pd : Pending) : Prop :=
  pd.req = .get API_URL ∧
  (∀ data s, exec (pd.k (.resolved data)) s = (setEvents (specListResult data) s, .finished)) ∧
  (∀ s, exec (pd.k .rejected) s =
    (setEvents (.arr []) (setError loadErrorMessage s), .finished))

/-- What holds of every request in flight: resumed with a success its handler
leaves the error string alone, resumed with a failure it sets the message of
the request; it leaves the edit buffer alone and does not open the modal; and
the only request that it goes on to await is a List request. -/
def Sound (pd : Pending) : Prop :=
  (∀ data s, (exec (pd.k (.resolved data)) s).1.error = s.error) ∧
  (∀ s, (exec (pd.k .rejected) s).1.error = some (failureMessage pd.req)) ∧
  (∀ o s, (exec (pd.k o) s).1.currentEvent = s.currentEvent ∧
    ((exec (pd.k o) s).1.isUpdating = true → s.isUpdating = true)) ∧
  (∀ o s pd', (exec (pd.k o) s).2 = .suspended pd' → ListPending pd')

/-- The invariant of the client: every request in flight is sound, and while
the modal is open the edit buffer is an object. -/
def Invariant (c : Client) : Prop :=
  (∀ pd ∈ c.inflight, Sound pd) ∧
  (c.app.isUpdating = true → ∃ kvs, c.app.currentEvent = .obj kvs)

/-- The client after the first List request has failed. -/
def failedLoadClient : Client := step asciiRuntime initialClient (.response 0 .rejected)

/-- The client after the first List request has failed and the draft was submitted. -/
def submittedClient : Client := step asciiRuntime failedLoadClient .submit

/-! ## Lemmas on the string and array built-ins -/

theorem stringIndexOf_isSome (search : JSString) (s : JSString) (i : Nat) :
    (stringIndexOf search s i).isSome = true ↔ search <:+: s := by
  induction s generalizing i with
  | nil =>
    unfold stringIndexOf
    by_cases h : search.isPrefixOf [] = true
    · simp only [h, if_true, Option.isSome_some, true_iff]
      exact (List.isPrefixOf_iff_prefix.mp h).isInfix
    · simp only [h, Bool.false_eq_true, if_false, Option.isSome_none, false_iff]
      intro hin
      have : search = [] := List.eq_nil_of_infix_nil hin
      subst this
      exact h (by simp)
  | cons c rest ih =>
    unfold stringIndexOf
    by_cases h : search.isPrefixOf (c :: rest) = true
    · simp only [h, if_true, Option.isSome_some, true_iff]
      exact (List.isPrefixOf_iff_prefix.mp h).isInfix
    · simp only [h, Bool.false_eq_true, if_false, ih (i + 1)]
      rw [List.infix_cons_iff]
      constructor
      · intro hr; exact Or.inr hr
      · rintro (hp | hr)
        · exact absurd (List.isPrefixOf_iff_prefix.mpr hp) h
        · exact hr

theorem includes_iff_substring (s search : JSString) :
    includes s search = true ↔ search <:+: s :=
  stringIndexOf_isSome search s 0

theorem includes_eq_decide (s search : JSString) :
    includes s search = decide (search <:+: s) := by
  by_cases h : search <:+: s
  · simp [h, (includes_iff_substring s search).mpr h]
  · have : includes s search = false := by
      cases hc : includes s search with
      | false => rfl
      | true => exact absurd ((includes_iff_substring s search).mp hc) h
    simp [h, this]

theorem arrayFilter_eq_filter (callback : JSValue → Except JSError Bool) (p : JSValue → Bool)
    (xs : List JSValue) (h : ∀ x ∈ xs, callback x = .ok (p x)) :
    arrayFilter callback xs = .ok (xs.filter p) := by
  induction xs with
  | nil => rfl
  | cons x rest ih =>
    have hx := h x (List.mem_cons_self x rest)
    have hrest := ih (fun y hy => h y (List.mem_cons_of_mem x hy))
    unfold arrayFilter
    rw [hx, hrest]
    cases hp : p x <;> simp [List.filter, hp, bind, Except.bind, pure, Except.pure]

theorem nameOf_eq_some (event : JSValue) (nm : JSString) :
    nameOf event = some nm ↔ HasName event nm := by
  unfold HasName
  constructor
  · intro h
    cases event with
    | obj kvs =>
      refine ⟨kvs, rfl, ?_⟩
      simp only [nameOf] at h
      split at h
      · next s heq => rw [heq]; simp only [Option.some.injEq] at h; rw [h]
      · exact absurd h (by simp)
    | _ => exact absurd h (by simp [nameOf])
  · rintro ⟨kvs, rfl, hl⟩
    simp [nameOf, hl]

theorem nameMatches_of_hasName (rt : Runtime) (filterName : JSString) (event : JSValue)
    (nm : JSString) (h : HasName event nm) :
    nameMatches rt filterName event = .ok (nameContains rt filterName event) := by
  have hn := (nameOf_eq_some event nm).mpr h
  obtain ⟨kvs, rfl, hl⟩ := h
  simp [nameMatches, getProp, hl, callToLowerCase, nameContains, hn, includes_eq_decide,
    bind, Except.bind, pure, Except.pure]

theorem nameContains_iff (rt : Runtime) (filterName : JSString) (event : JSValue) :
    nameContains rt filterName event = true ↔ NameContains rt filterName event := by
  unfold nameContains NameContains
  cases hn : nameOf event with
  | none =>
    simp only [Bool.false_eq_true, false_iff]
    rintro ⟨nm, hnm, _⟩
    rw [(nameOf_eq_some event nm).mpr hnm] at hn
    exact absurd hn (by simp)
  | some nm =>
    simp only [decide_eq_true_eq]
    constructor
    · intro h; exact ⟨nm, (nameOf_eq_some event nm).mp hn, h⟩
    · rintro ⟨nm2, hnm, h⟩
      have := (nameOf_eq_some event nm2).mpr hnm
      rw [hn] at this
      cases this
      exact h


/-! ## The List handler -/

/-- The statements of `fetchEvents` that follow a resolved `await`, inside the
`try`: they set the collection and never reach the `catch`. -/
theorem fetchEvents_body (data : JSValue) (handler : JSError → Prog) :
    tryCatch
      (if isArray data then
        .set (setEvents data) .ret
      else
        evalThen (hasEmbeddedEvents data) fun nested =>
          if nested then
            evalThen (do let embedded ← getProp data embeddedKey; getProp embedded eventsKey)
              fun events => .set (setEvents events) .ret
          else
            .set (setEvents (.arr [])) .ret) handler
      = .set (setEvents (specListResult data)) .ret := by
  cases data with
  | arr xs => simp [isArray, tryCatch, specListResult]
  | obj kvs =>
    simp only [isArray, Bool.false_eq_true, if_false, hasEmbeddedEvents, truthy, if_true,
      getProp, specListResult, bind, Except.bind, pure, Except.pure]
    cases h1 : lookup embeddedKey kvs with
    | obj nested =>
      simp only [optProp, getProp]
      cases h2 : lookup eventsKey nested <;>
        simp [isArray, evalThen, tryCatch]
    | _ => simp [optProp, getProp, isArray, evalThen, tryCatch]
  | undefined => simp [isArray, hasEmbeddedEvents, truthy, evalThen, tryCatch, specListResult, pure, Except.pure]
  | null => simp [isArray, hasEmbeddedEvents, truthy, evalThen, tryCatch, specListResult, pure, Except.pure]
  | bool b =>
    cases b <;>
      simp [isArray, hasEmbeddedEvents, truthy, evalThen, tryCatch, specListResult, pure,
        Except.pure, getProp, optProp, bind, Except.bind]
  | num bits =>
    by_cases h : truthy (.num bits) = true <;>
      simp [isArray, hasEmbeddedEvents, h, evalThen, tryCatch, specListResult, pure,
        Except.pure, getProp, optProp, bind, Except.bind]
  | str cs =>
    by_cases h : truthy (.str cs) = true <;>
      simp [isArray, hasEmbeddedEvents, h, evalThen, tryCatch, specListResult, pure,
        Except.pure, getProp, optProp, bind, Except.bind]

/-- The handler `fetchEvents` awaits the List request and then either stores the
normalised body or, on a rejection, sets the load error and the empty collection. -/
theorem fetchEvents_eq :
    fetchEvents = .await (.get API_URL) (fun outcome =>
      match outcome with
      | .resolved data => .set (setEvents (specListResult data)) .ret
      | .rejected => .set (setError loadErrorMessage) (.set (setEvents (.arr [])) .ret)) := by
  unfold fetchEvents awaitData
  simp only [tryCatch]
  congr 1
  funext outcome
  cases outcome with
  | resolved data => exact fetchEvents_body data _
  | rejected => simp [tryCatch]

theorem run_fetchEvents_resolved (body : JSValue) (os : List Outcome) (s : AppState)
    (tr : List Request) :
    run fetchEvents (.resolved body :: os) s tr =
      ⟨setEvents (specListResult body) s, tr ++ [.get API_URL], .finished⟩ := by
  rw [fetchEvents_eq]; simp [run]

theorem run_fetchEvents_rejected (os : List Outcome) (s : AppState) (tr : List Request) :
    run fetchEvents (.rejected :: os) s tr =
      ⟨setEvents (.arr []) (setError loadErrorMessage s), tr ++ [.get API_URL], .finished⟩ := by
  rw [fetchEvents_eq]; simp [run]

theorem run_fetchEvents_nil (s : AppState) (tr : List Request) :
    run fetchEvents [] s tr = ⟨s, tr ++ [.get API_URL], .pending⟩ := by
  rw [fetchEvents_eq]; simp [run]

theorem arrayFilter_ok_iff (callback : JSValue → Except JSError Bool) (xs : List JSValue) :
    (∃ view, arrayFilter callback xs = .ok view) ↔ ∀ x ∈ xs, ∃ b, callback x = .ok b := by
  induction xs with
  | nil => simp [arrayFilter]
  | cons x rest ih =>
    simp only [List.mem_cons, forall_eq_or_imp, ← ih, arrayFilter]
    cases hx : callback x with
    | error e => simp [bind, Except.bind]
    | ok b =>
      cases hr : arrayFilter callback rest with
      | error e => simp [bind, Except.bind]
      | ok kept => simp [bind, Except.bind, pure, Except.pure]

theorem nameMatches_ok_iff (rt : Runtime) (filterName : JSString) (event : JSValue) :
    (∃ b, nameMatches rt filterName event = .ok b) ↔ ∃ nm, HasName event nm := by
  constructor
  · rintro ⟨b, hb⟩
    cases event with
    | obj kvs =>
      cases hl : lookup nameKey kvs with
      | str nm => exact ⟨nm, kvs, rfl, hl⟩
      | _ => simp [nameMatches, getProp, hl, callToLowerCase, bind, Except.bind] at hb
    | _ => simp [nameMatches, getProp, callToLowerCase, bind, Except.bind] at hb
  · rintro ⟨nm, h⟩
    exact ⟨_, nameMatches_of_hasName rt filterName event nm h⟩

/-! ## The filtered view -/

/-- C1: for a collection whose events all have a string name, the filtered view
of `App` is the list of the events whose lower-cased name contains the
lower-cased filter text, in the original order; with the empty filter text
(which lower-cases to itself) it is the whole collection. -/
theorem filteredEvents_eq_specFilteredView (rt : Runtime) (events : List JSValue)
    (filterName : JSString) (hnames : ∀ e ∈ events, ∃ nm, HasName e nm) :
    filteredEvents rt (.arr events) filterName = .ok (specFilteredView rt events filterName) ∧
    List.Sublist (specFilteredView rt events filterName) events ∧
    (∀ e, e ∈ specFilteredView rt events filterName ↔
      e ∈ events ∧ NameContains rt filterName e) ∧
    (rt.toLowerCase [] = [] → filteredEvents rt (.arr events) [] = .ok events) := by
  have hcode : ∀ f : JSString,
      filteredEvents rt (.arr events) f = .ok (specFilteredView rt events f) := by
    intro f
    unfold filteredEvents specFilteredView
    apply arrayFilter_eq_filter
    intro e he
    obtain ⟨nm, hnm⟩ := hnames e he
    exact nameMatches_of_hasName rt f e nm hnm
  refine ⟨hcode filterName, List.filter_sublist _, ?_, ?_⟩
  · intro e
    unfold specFilteredView
    rw [List.mem_filter, nameContains_iff]
  · intro h0
    rw [hcode []]
    unfold specFilteredView
    congr 1
    rw [List.filter_eq_self]
    intro e he
    obtain ⟨nm, hnm⟩ := hnames e he
    rw [nameContains_iff]
    refine ⟨nm, hnm, ?_⟩
    rw [h0]
    exact List.nil_infix

/-- Witness of C1: the collection `Alpha`, `Beta` filtered by `LP` and by the empty text. -/
theorem filteredEvents_eq_specFilteredView_witness :
    (∀ e ∈ [alphaEvent, betaEvent], ∃ nm, HasName e nm) ∧
    specFilteredView asciiRuntime [alphaEvent, betaEvent] (utf16 "LP") = [alphaEvent] ∧
    (filteredEvents asciiRuntime (.arr [alphaEvent, betaEvent]) (utf16 "LP") =
        .ok (specFilteredView asciiRuntime [alphaEvent, betaEvent] (utf16 "LP")) ∧
      List.Sublist (specFilteredView asciiRuntime [alphaEvent, betaEvent] (utf16 "LP"))
        [alphaEvent, betaEvent] ∧
      (∀ e, e ∈ specFilteredView asciiRuntime [alphaEvent, betaEvent] (utf16 "LP") ↔
        e ∈ [alphaEvent, betaEvent] ∧ NameContains asciiRuntime (utf16 "LP") e) ∧
      (asciiRuntime.toLowerCase [] = [] →
        filteredEvents asciiRuntime (.arr [alphaEvent, betaEvent]) [] =
          .ok [alphaEvent, betaEvent])) :=
  have hnames : ∀ e ∈ [alphaEvent, betaEvent], ∃ nm, HasName e nm := by
    intro e he
    simp only [List.mem_cons, List.mem_singleton, List.not_mem_nil, or_false] at he
    rcases he with rfl | rfl
    · exact ⟨utf16 "Alpha", _, rfl, rfl⟩
    · exact ⟨utf16 "Beta", _, rfl, rfl⟩
  ⟨hnames, rfl,
    filteredEvents_eq_specFilteredView asciiRuntime [alphaEvent, betaEvent] (utf16 "LP") hnames⟩

/-- C10, as the code behaves: a plain-array body is stored as it is, and the
filtered view is then computed without an exception exactly when every element
of the array is an object whose `name` is a string. -/
theorem filteredEvents_ok_iff_names (rt : Runtime) (xs : List JSValue) (filterName : JSString)
    (s : AppState) :
    (run fetchEvents [.resolved (.arr xs)] s []).state.events = .arr xs ∧
    ((∃ view, filteredEvents rt (run fetchEvents [.resolved (.arr xs)] s []).state.events
        filterName = .ok view) ↔ ∀ e ∈ xs, ∃ nm, HasName e nm) := by
  rw [run_fetchEvents_resolved]
  refine ⟨rfl, ?_⟩
  show (∃ view, arrayFilter (nameMatches rt filterName) xs = .ok view) ↔ _
  rw [arrayFilter_ok_iff]
  constructor
  · intro h e he; exact (nameMatches_ok_iff rt filterName e).mp (h e he)
  · intro h e he; exact (nameMatches_ok_iff rt filterName e).mpr (h e he)

/-- C10 fails as stated: the body `[null]` is accepted and stored by `fetchEvents`, and the
filtered view over it, with the empty filter text, raises a `TypeError`. -/
theorem filteredEvents_throws_on_null_element :
    (run fetchEvents [.resolved (.arr [.null])] initialState []).state.events = .arr [.null] ∧
    filteredEvents asciiRuntime
      (run fetchEvents [.resolved (.arr [.null])] initialState []).state.events
      (run fetchEvents [.resolved (.arr [.null])] initialState []).state.filterName
      = .error .typeError := by
  rw [run_fetchEvents_resolved]
  exact ⟨rfl, rfl⟩

/-! ## The Create, Update and Delete handlers -/

theorem handleAddEvent_eq (newEvent : JSValue) :
    handleAddEvent newEvent = .await (.post API_URL newEvent) (fun outcome =>
      match outcome with
      | .resolved _ => .set (setNewEvent emptyDraft) (.detach fetchEvents)
      | .rejected => .set (setError addErrorMessage) .ret) := by
  unfold handleAddEvent awaitData
  simp only [tryCatch]
  congr 1
  funext outcome
  cases outcome <;> simp [tryCatch]

theorem handleDeleteEvent_eq (rt : Runtime) (id : JSValue) :
    handleDeleteEvent rt id = .await (.delete (itemUrl rt id)) (fun outcome =>
      match outcome with
      | .resolved _ => .detach fetchEvents
      | .rejected => .set (setError deleteErrorMessage) .ret) := by
  unfold handleDeleteEvent awaitData
  simp only [tryCatch]
  congr 1
  funext outcome
  cases outcome <;> simp [tryCatch]

theorem handleUpdateEvent_of_getProp (rt : Runtime) (currentEvent id : JSValue)
    (h : getProp currentEvent idKey = .ok id) :
    handleUpdateEvent rt currentEvent = .await (.put (itemUrl rt id) currentEvent) (fun outcome =>
      match outcome with
      | .resolved _ => .set (setIsUpdating false) (.detach fetchEvents)
      | .rejected => .set (setError updateErrorMessage) .ret) := by
  unfold handleUpdateEvent awaitData
  simp only [h, evalThen, tryCatch]
  congr 1
  funext outcome
  cases outcome <;> simp [tryCatch]

theorem handleUpdateEvent_of_throw (rt : Runtime) (currentEvent : JSValue) (e : JSError)
    (h : getProp currentEvent idKey = .error e) :
    handleUpdateEvent rt currentEvent = .set (setError updateErrorMessage) .ret := by
  unfold handleUpdateEvent
  simp only [h, evalThen, tryCatch]

theorem loadErrorMessage_ne_nil : loadErrorMessage ≠ [] := by decide
theorem addErrorMessage_ne_nil : addErrorMessage ≠ [] := by decide
theorem updateErrorMessage_ne_nil : updateErrorMessage ≠ [] := by decide
theorem deleteErrorMessage_ne_nil : deleteErrorMessage ≠ [] := by decide

theorem failureMessage_ne_nil (req : Request) : failureMessage req ≠ [] := by
  cases req
  · exact loadErrorMessage_ne_nil
  · exact addErrorMessage_ne_nil
  · exact updateErrorMessage_ne_nil
  · exact deleteErrorMessage_ne_nil

theorem specListResult_of_recognised (body : JSValue) (xs : List JSValue)
    (h : body = .arr xs ∨ EmbeddedEvents body xs) : specListResult body = .arr xs := by
  rcases h with rfl | ⟨kvs, nested, rfl, h1, h2⟩
  · rfl
  · simp [specListResult, h1, h2]

theorem specListResult_of_not_recognised (body : JSValue) (h : ¬ Recognised body) :
    specListResult body = .arr [] := by
  cases body with
  | arr xs => exact absurd ⟨xs, Or.inl rfl⟩ h
  | obj kvs =>
    simp only [specListResult]
    cases h1 : lookup embeddedKey kvs with
    | obj nested =>
      cases h2 : lookup eventsKey nested with
      | arr xs => exact absurd ⟨xs, Or.inr ⟨kvs, nested, rfl, h1, h2⟩⟩ h
      | _ => simp [h2]
    | _ => rfl
  | _ => rfl

/-! ## The claims on List -/

/-- C2: after a successful List response whose body is the array `xs`, or an
object with the array `xs` under `_embedded.events`, the local collection is
`xs`, in order, and the error string is what it was. -/
theorem fetchEvents_recognised (s : AppState) (body : JSValue) (xs : List JSValue)
    (h : body = .arr xs ∨ EmbeddedEvents body xs) :
    (run fetchEvents [.resolved body] s []).state.events = .arr xs ∧
    (run fetchEvents [.resolved body] s []).state.error = s.error ∧
    (run fetchEvents [.resolved body] s []).status = .finished := by
  rw [run_fetchEvents_resolved, specListResult_of_recognised body xs h]
  exact ⟨rfl, rfl, rfl⟩

/-- Witness of C2: the envelope `{ _embedded: { events: [Alpha, Beta] } }`. -/
theorem fetchEvents_recognised_witness :
    EmbeddedEvents
      (.obj [(embeddedKey, .obj [(eventsKey, .arr [alphaEvent, betaEvent])])])
      [alphaEvent, betaEvent] ∧
    (run fetchEvents
      [.resolved (.obj [(embeddedKey, .obj [(eventsKey, .arr [alphaEvent, betaEvent])])])]
      initialState []).state.events = .arr [alphaEvent, betaEvent] ∧
    (run fetchEvents
      [.resolved (.obj [(embeddedKey, .obj [(eventsKey, .arr [alphaEvent, betaEvent])])])]
      initialState []).state.error = initialState.error ∧
    (run fetchEvents
      [.resolved (.obj [(embeddedKey, .obj [(eventsKey, .arr [alphaEvent, betaEvent])])])]
      initialState []).status = .finished :=
  ⟨⟨_, _, rfl, rfl, rfl⟩,
    fetchEvents_recognised initialState _ [alphaEvent, betaEvent]
      (Or.inr ⟨_, _, rfl, rfl, rfl⟩)⟩

/-- C3: after a successful List response whose body is neither an array nor an
object with an array under `_embedded.events`, the local collection is empty,
whatever it was, and `fetchEvents` has returned without an exception. -/
theorem fetchEvents_unrecognised (s : AppState) (body : JSValue) (h : ¬ Recognised body) :
    (run fetchEvents [.resolved body] s []).state.events = .arr [] ∧
    (run fetchEvents [.resolved body] s []).status = .finished := by
  rw [run_fetchEvents_resolved, specListResult_of_not_recognised body h]
  exact ⟨rfl, rfl⟩

/-- Witness of C3: the body `{ _embedded: { events: 5 } }`, over a collection that holds `Alpha`. -/
theorem fetchEvents_unrecognised_witness :
    ¬ Recognised (.obj [(embeddedKey, .obj [(eventsKey, .num 0x4014000000000000)])]) ∧
    (run fetchEvents [.resolved (.obj [(embeddedKey, .obj [(eventsKey, .num 0x4014000000000000)])])]
      (setEvents (.arr [alphaEvent]) initialState) []).state.events = .arr [] ∧
    (run fetchEvents [.resolved (.obj [(embeddedKey, .obj [(eventsKey, .num 0x4014000000000000)])])]
      (setEvents (.arr [alphaEvent]) initialState) []).status = .finished :=
  have hshape : ¬ Recognised (.obj [(embeddedKey, .obj [(eventsKey, .num 0x4014000000000000)])]) := by
    rintro ⟨xs, h | ⟨kvs, nested, h0, h1, h2⟩⟩
    · cases h
    · cases h0
      have hn : nested = [(eventsKey, .num 0x4014000000000000)] := by
        have : lookup embeddedKey [(embeddedKey, JSValue.obj [(eventsKey, .num 0x4014000000000000)])]
            = .obj [(eventsKey, .num 0x4014000000000000)] := rfl
        rw [this] at h1
        cases h1
        rfl
      subst hn
      have : lookup eventsKey [(eventsKey, JSValue.num 0x4014000000000000)]
          = .num 0x4014000000000000 := rfl
      rw [this] at h2
      cases h2
  ⟨hshape, fetchEvents_unrecognised (setEvents (.arr [alphaEvent]) initialState) _ hshape⟩

/-- C4: when the List request fails, the local collection is empty afterwards,
the error string is the load-failure message, which is not empty, `fetchEvents`
has returned without an exception, and the draft, the filter text and the edit
buffer are what they were. -/
theorem fetchEvents_rejected (s : AppState) :
    (run fetchEvents [.rejected] s []).state.events = .arr [] ∧
    (run fetchEvents [.rejected] s []).state.error = some loadErrorMessage ∧
    loadErrorMessage ≠ [] ∧
    (run fetchEvents [.rejected] s []).status = .finished ∧
    (run fetchEvents [.rejected] s []).state.newEvent = s.newEvent ∧
    (run fetchEvents [.rejected] s []).state.filterName = s.filterName ∧
    (run fetchEvents [.rejected] s []).state.currentEvent = s.currentEvent ∧
    (run fetchEvents [.rejected] s []).state.isUpdating = s.isUpdating := by
  rw [run_fetchEvents_rejected]
  exact ⟨rfl, rfl, loadErrorMessage_ne_nil, rfl, rfl, rfl, rfl, rfl⟩

/-- C9, as the code behaves: a successful List response whose body is in neither
recognised shape leaves the error string as it was and only empties the
collection; the load-failure message is set when the request fails. -/
theorem fetchEvents_unrecognised_error_unchanged (s : AppState) (body : JSValue)
    (h : ¬ Recognised body) :
    (run fetchEvents [.resolved body] s []).state.error = s.error ∧
    (run fetchEvents [.resolved body] s []).state.events = .arr [] ∧
    (run fetchEvents [.rejected] s []).state.error = some loadErrorMessage := by
  rw [run_fetchEvents_resolved, run_fetchEvents_rejected,
    specListResult_of_not_recognised body h]
  exact ⟨rfl, rfl, rfl⟩

/-- Witness of C9 as amended: the body `{}` on the first render. -/
theorem fetchEvents_unrecognised_error_unchanged_witness :
    ¬ Recognised (.obj []) ∧
    (run fetchEvents [.resolved (.obj [])] initialState []).state.error = initialState.error ∧
    (run fetchEvents [.resolved (.obj [])] initialState []).state.events = .arr [] ∧
    (run fetchEvents [.rejected] initialState []).state.error = some loadErrorMessage :=
  have hshape : ¬ Recognised (.obj []) := by
    rintro ⟨xs, h | ⟨kvs, nested, h0, h1, h2⟩⟩
    · cases h
    · cases h0
      cases h1
  ⟨hshape, fetchEvents_unrecognised_error_unchanged initialState (.obj []) hshape⟩

/-- C9 fails as stated: after the successful response `{}`, which is in neither
recognised shape, the error string is still unset and so is not the load-failure message. -/
theorem fetchEvents_format_error_not_surfaced :
    ¬ Recognised (.obj []) ∧
    (run fetchEvents [.resolved (.obj [])] initialState []).state.error = none ∧
    (run fetchEvents [.resolved (.obj [])] initialState []).state.error
      ≠ (run fetchEvents [.rejected] initialState []).state.error := by
  rw [run_fetchEvents_resolved, run_fetchEvents_rejected]
  refine ⟨?_, rfl, ?_⟩
  · rintro ⟨xs, h | ⟨kvs, nested, h0, h1, h2⟩⟩
    · cases h
    · cases h0
      cases h1
  · intro h
    cases h

/-! ## Runs of the Create, Update and Delete handlers -/

theorem run_handleDeleteEvent_rejected (rt : Runtime) (id : JSValue) (os : List Outcome)
    (s : AppState) (tr : List Request) :
    run (handleDeleteEvent rt id) (.rejected :: os) s tr =
      ⟨setError deleteErrorMessage s, tr ++ [.delete (itemUrl rt id)], .finished⟩ := by
  rw [handleDeleteEvent_eq]; rfl

theorem run_handleAddEvent_rejected (newEvent : JSValue) (os : List Outcome)
    (s : AppState) (tr : List Request) :
    run (handleAddEvent newEvent) (.rejected :: os) s tr =
      ⟨setError addErrorMessage s, tr ++ [.post API_URL newEvent], .finished⟩ := by
  rw [handleAddEvent_eq]; rfl

theorem run_handleAddEvent_resolved (newEvent data : JSValue) (os : List Outcome)
    (s : AppState) (tr : List Request) :
    run (handleAddEvent newEvent) (.resolved data :: os) s tr =
      run fetchEvents os (setNewEvent emptyDraft s) (tr ++ [.post API_URL newEvent]) := by
  rw [handleAddEvent_eq]; rfl

theorem run_handleUpdateEvent_rejected (rt : Runtime) (currentEvent id : JSValue)
    (h : getProp currentEvent idKey = .ok id) (os : List Outcome) (s : AppState)
    (tr : List Request) :
    run (handleUpdateEvent rt currentEvent) (.rejected :: os) s tr =
      ⟨setError updateErrorMessage s, tr ++ [.put (itemUrl rt id) currentEvent], .finished⟩ := by
  rw [handleUpdateEvent_of_getProp rt currentEvent id h]; rfl

theorem run_handleUpdateEvent_resolved (rt : Runtime) (currentEvent id : JSValue)
    (h : getProp currentEvent idKey = .ok id) (data : JSValue) (os : List Outcome)
    (s : AppState) (tr : List Request) :
    run (handleUpdateEvent rt currentEvent) (.resolved data :: os) s tr =
      run fetchEvents os (setIsUpdating false s)
        (tr ++ [.put (itemUrl rt id) currentEvent]) := by
  rw [handleUpdateEvent_of_getProp rt currentEvent id h]; rfl

/-- After the List request is issued, whatever its outcome, a run of `fetchEvents` has
the List request as its one request and changes neither the draft nor the modal flag. -/
theorem run_fetchEvents_frame (os : List Outcome) (s : AppState) (tr : List Request) :
    (run fetchEvents os s tr).trace = tr ++ [.get API_URL] ∧
    (run fetchEvents os s tr).state.newEvent = s.newEvent ∧
    (run fetchEvents os s tr).state.isUpdating = s.isUpdating ∧
    (run fetchEvents os s tr).state.currentEvent = s.currentEvent := by
  cases os with
  | nil => rw [run_fetchEvents_nil]; exact ⟨rfl, rfl, rfl, rfl⟩
  | cons o rest =>
    cases o with
    | resolved body => rw [run_fetchEvents_resolved]; exact ⟨rfl, rfl, rfl, rfl⟩
    | rejected => rw [run_fetchEvents_rejected]; exact ⟨rfl, rfl, rfl, rfl⟩

/-! ## The claims on Delete, Create and Update -/

/-- C5: when the Delete request fails, the local collection is what it was,
the error string is set and not empty, and the only request issued is the
Delete request, so no List request. -/
theorem handleDeleteEvent_rejected (rt : Runtime) (s : AppState) (id : JSValue)
    (os : List Outcome) :
    (run (handleDeleteEvent rt id) (.rejected :: os) s []).state.events = s.events ∧
    (∃ msg, (run (handleDeleteEvent rt id) (.rejected :: os) s []).state.error = some msg ∧
      msg ≠ []) ∧
    (run (handleDeleteEvent rt id) (.rejected :: os) s []).trace = [.delete (itemUrl rt id)] ∧
    (∀ req ∈ (run (handleDeleteEvent rt id) (.rejected :: os) s []).trace,
      isListRequest req = false) ∧
    (run (handleDeleteEvent rt id) (.rejected :: os) s []).status = .finished := by
  rw [run_handleDeleteEvent_rejected]
  refine ⟨rfl, ⟨deleteErrorMessage, rfl, deleteErrorMessage_ne_nil⟩, rfl, ?_, rfl⟩
  intro req hreq
  have hreq2 : req = .delete (itemUrl rt id) := by simpa using hreq
  subst hreq2
  rfl

/-- C6: when the Create request succeeds, the draft is `{ name: "" }` afterwards
and the requests issued are the POST, carrying the draft, followed by exactly
one List request, whether that one is still pending or has been answered; when
the Create request fails, the draft and the local collection are what they
were, the error string is set, and the POST is the only request issued. -/
theorem handleAddEvent_outcomes (s : AppState) (data : JSValue) (os : List Outcome) :
    (run (handleAddEvent s.newEvent) (.resolved data :: os) s []).state.newEvent
      = .obj [(utf16 "name", .str (utf16 ""))] ∧
    (run (handleAddEvent s.newEvent) (.resolved data :: os) s []).trace
      = [.post API_URL s.newEvent, .get API_URL] ∧
    ((run (handleAddEvent s.newEvent) (.resolved data :: os) s []).trace.filter
      isListRequest).length = 1 ∧
    (run (handleAddEvent s.newEvent) (.rejected :: os) s []).state.newEvent = s.newEvent ∧
    (run (handleAddEvent s.newEvent) (.rejected :: os) s []).state.events = s.events ∧
    (run (handleAddEvent s.newEvent) (.rejected :: os) s []).state.error
      = some addErrorMessage ∧
    addErrorMessage ≠ [] ∧
    (run (handleAddEvent s.newEvent) (.rejected :: os) s []).trace
      = [.post API_URL s.newEvent] ∧
    (run (handleAddEvent s.newEvent) (.rejected :: os) s []).status = .finished := by
  rw [run_handleAddEvent_resolved, run_handleAddEvent_rejected]
  obtain ⟨htrace, hdraft, _, _⟩ :=
    run_fetchEvents_frame os (setNewEvent emptyDraft s) ([] ++ [.post API_URL s.newEvent])
  have hlist : isListRequest (.get API_URL) = true := by simp [isListRequest]
  have hpost : isListRequest (.post API_URL s.newEvent) = false := rfl
  refine ⟨?_, ?_, ?_, rfl, rfl, rfl, addErrorMessage_ne_nil, rfl, rfl⟩
  · rw [hdraft]; rfl
  · rw [htrace]; rfl
  · rw [htrace]
    simp [List.filter, hlist, hpost]

/-- C7: from the state Editing(buffer), with the buffer an object, a save whose
PUT fails leaves the state Editing(buffer), sets the error string, leaves the
local collection as it was and issues no request but the PUT; a save whose PUT
succeeds leads to Idle and issues a List request after the PUT; the PUT goes to
the URL that ends in the `id` of the buffer and carries the buffer as its body. -/
theorem handleUpdateEvent_outcomes (rt : Runtime) (s : AppState)
    (kvs : List (JSString × JSValue)) (data : JSValue) (os : List Outcome)
    (hedit : editState s = .editing (.obj kvs)) :
    editState (run (handleUpdateEvent rt s.currentEvent) (.rejected :: os) s []).state
      = .editing (.obj kvs) ∧
    (run (handleUpdateEvent rt s.currentEvent) (.rejected :: os) s []).state.error
      = some updateErrorMessage ∧
    updateErrorMessage ≠ [] ∧
    (run (handleUpdateEvent rt s.currentEvent) (.rejected :: os) s []).state.events
      = s.events ∧
    (run (handleUpdateEvent rt s.currentEvent) (.rejected :: os) s []).trace
      = [.put (itemUrl rt (lookup idKey kvs)) (.obj kvs)] ∧
    editState (run (handleUpdateEvent rt s.currentEvent) (.resolved data :: os) s []).state
      = .idle ∧
    (run (handleUpdateEvent rt s.currentEvent) (.resolved data :: os) s []).trace
      = [.put (itemUrl rt (lookup idKey kvs)) (.obj kvs), .get API_URL] ∧
    rt.toStr (lookup idKey kvs) <:+ itemUrl rt (lookup idKey kvs) := by
  have hs : s.isUpdating = true ∧ s.currentEvent = .obj kvs := by
    unfold editState at hedit
    by_cases hu : s.isUpdating = true
    · rw [if_pos hu] at hedit
      exact ⟨hu, by injection hedit⟩
    · rw [if_neg hu] at hedit
      cases hedit
  obtain ⟨hu, hc⟩ := hs
  have hid : getProp (.obj kvs) idKey = .ok (lookup idKey kvs) := rfl
  rw [hc, run_handleUpdateEvent_rejected rt _ _ hid,
    run_handleUpdateEvent_resolved rt _ _ hid]
  obtain ⟨htrace, _, hflag, _⟩ :=
    run_fetchEvents_frame os (setIsUpdating false s)
      ([] ++ [.put (itemUrl rt (lookup idKey kvs)) (.obj kvs)])
  refine ⟨?_, rfl, updateErrorMessage_ne_nil, rfl, rfl, ?_, ?_, List.suffix_append _ _⟩
  · simp [editState, setError, hu, hc]
  · rw [editState, hflag]; rfl
  · rw [htrace]; rfl

/-- Witness of C7: the buffer `{ id: 3, name: "Old" }` opened from the first render;
the PUT goes to the URL that ends in `/3`. -/
theorem handleUpdateEvent_outcomes_witness :
    editState (handleUpdateClick oldEvent initialState) = .editing oldEvent ∧
    asciiRuntime.toStr (lookup idKey [(idKey, .num 0x4008000000000000),
      (nameKey, .str (utf16 "Old"))]) = utf16 "3" ∧
    (run (handleUpdateEvent asciiRuntime (handleUpdateClick oldEvent initialState).currentEvent)
      [.resolved oldEvent] (handleUpdateClick oldEvent initialState) []).trace
      = [.put (itemUrl asciiRuntime (lookup idKey [(idKey, .num 0x4008000000000000),
          (nameKey, .str (utf16 "Old"))])) oldEvent, .get API_URL] ∧
    editState (run
      (handleUpdateEvent asciiRuntime (handleUpdateClick oldEvent initialState).currentEvent)
      [.rejected] (handleUpdateClick oldEvent initialState) []).state = .editing oldEvent :=
  have h := handleUpdateEvent_outcomes asciiRuntime (handleUpdateClick oldEvent initialState)
    [(idKey, .num 0x4008000000000000), (nameKey, .str (utf16 "Old"))] oldEvent [] rfl
  ⟨rfl, by decide, h.2.2.2.2.2.2.1, h.1⟩

/-! ## The reachable clients -/

theorem exec_fetchEvents (s : AppState) :
    ∃ pd, exec fetchEvents s = (s, .suspended pd) ∧ ListPending pd := by
  rw [fetchEvents_eq]
  exact ⟨_, rfl, rfl, fun _ _ => rfl, fun _ => rfl⟩

theorem listPending_sound (pd : Pending) (h : ListPending pd) : Sound pd := by
  obtain ⟨hreq, hok, hfail⟩ := h
  refine ⟨?_, ?_, ?_, ?_⟩
  · intro data s; rw [hok]; rfl
  · intro s; rw [hfail, hreq]; rfl
  · intro o s
    cases o with
    | resolved data => rw [hok]; exact ⟨rfl, fun h => h⟩
    | rejected => rw [hfail]; exact ⟨rfl, fun h => h⟩
  · intro o s pd' hpd
    cases o with
    | resolved data => rw [hok] at hpd; cases hpd
    | rejected => rw [hfail] at hpd; cases hpd

theorem exec_handleAddEvent (newEvent : JSValue) (s : AppState) :
    ∃ pd, exec (handleAddEvent newEvent) s = (s, .suspended pd) ∧ Sound pd ∧
      pd.req = .post API_URL newEvent := by
  rw [handleAddEvent_eq]
  refine ⟨_, rfl, ⟨?_, ?_, ?_, ?_⟩, rfl⟩
  · intro data s2
    obtain ⟨pd, hpd, _⟩ := exec_fetchEvents (setNewEvent emptyDraft s2)
    show (exec fetchEvents (setNewEvent emptyDraft s2)).1.error = s2.error
    rw [hpd]; rfl
  · intro s2; rfl
  · intro o s2
    cases o with
    | resolved data =>
      obtain ⟨pd, hpd, _⟩ := exec_fetchEvents (setNewEvent emptyDraft s2)
      show (exec fetchEvents (setNewEvent emptyDraft s2)).1.currentEvent = s2.currentEvent ∧
        ((exec fetchEvents (setNewEvent emptyDraft s2)).1.isUpdating = true → _)
      rw [hpd]; exact ⟨rfl, fun h => h⟩
    | rejected => exact ⟨rfl, fun h => h⟩
  · intro o s2 pd' hpd'
    cases o with
    | resolved data =>
      obtain ⟨pd, hpd, hlist⟩ := exec_fetchEvents (setNewEvent emptyDraft s2)
      have h2 : (exec fetchEvents (setNewEvent emptyDraft s2)).2 = .suspended pd' := hpd'
      rw [hpd] at h2
      cases h2
      exact hlist
    | rejected => cases hpd'

theorem exec_handleDeleteEvent (rt : Runtime) (id : JSValue) (s : AppState) :
    ∃ pd, exec (handleDeleteEvent rt id) s = (s, .suspended pd) ∧ Sound pd ∧
      pd.req = .delete (itemUrl rt id) := by
  rw [handleDeleteEvent_eq]
  refine ⟨_, rfl, ⟨?_, ?_, ?_, ?_⟩, rfl⟩
  · intro data s2
    obtain ⟨pd, hpd, _⟩ := exec_fetchEvents s2
    show (exec fetchEvents s2).1.error = s2.error
    rw [hpd]
  · intro s2; rfl
  · intro o s2
    cases o with
    | resolved data =>
      obtain ⟨pd, hpd, _⟩ := exec_fetchEvents s2
      show (exec fetchEvents s2).1.currentEvent = s2.currentEvent ∧
        ((exec fetchEvents s2).1.isUpdating = true → _)
      rw [hpd]; exact ⟨rfl, fun h => h⟩
    | rejected => exact ⟨rfl, fun h => h⟩
  · intro o s2 pd' hpd'
    cases o with
    | resolved data =>
      obtain ⟨pd, hpd, hlist⟩ := exec_fetchEvents s2
      have h2 : (exec fetchEvents s2).2 = .suspended pd' := hpd'
      rw [hpd] at h2
      cases h2
      exact hlist
    | rejected => cases hpd'

theorem exec_handleUpdateEvent (rt : Runtime) (currentEvent id : JSValue)
    (h : getProp currentEvent idKey = .ok id) (s : AppState) :
    ∃ pd, exec (handleUpdateEvent rt currentEvent) s = (s, .suspended pd) ∧ Sound pd ∧
      pd.req = .put (itemUrl rt id) currentEvent := by
  rw [handleUpdateEvent_of_getProp rt currentEvent id h]
  refine ⟨_, rfl, ⟨?_, ?_, ?_, ?_⟩, rfl⟩
  · intro data s2
    obtain ⟨pd, hpd, _⟩ := exec_fetchEvents (setIsUpdating false s2)
    show (exec fetchEvents (setIsUpdating false s2)).1.error = s2.error
    rw [hpd]; rfl
  · intro s2; rfl
  · intro o s2
    cases o with
    | resolved data =>
      obtain ⟨pd, hpd, _⟩ := exec_fetchEvents (setIsUpdating false s2)
      show (exec fetchEvents (setIsUpdating false s2)).1.currentEvent = s2.currentEvent ∧
        ((exec fetchEvents (setIsUpdating false s2)).1.isUpdating = true → _)
      rw [hpd]
      refine ⟨rfl, fun h => ?_⟩
      cases h
    | rejected => exact ⟨rfl, fun h => h⟩
  · intro o s2 pd' hpd'
    cases o with
    | resolved data =>
      obtain ⟨pd, hpd, hlist⟩ := exec_fetchEvents (setIsUpdating false s2)
      have h2 : (exec fetchEvents (setIsUpdating false s2)).2 = .suspended pd' := hpd'
      rw [hpd] at h2
      cases h2
      exact hlist
    | rejected => cases hpd'

theorem dispatch_suspended (p : Prog) (app s : AppState) (inflight : List Pending)
    (pd : Pending) (h : exec p app = (s, .suspended pd)) :
    dispatch p app inflight = ⟨s, inflight ++ [pd]⟩ := by
  unfold dispatch; rw [h]

theorem dispatch_app (p : Prog) (app : AppState) (inflight : List Pending) :
    (dispatch p app inflight).app = (exec p app).1 := by
  unfold dispatch
  cases h : exec p app with
  | mk s r => cases r <;> rfl

theorem dispatch_inflight_sound (p : Prog) (app : AppState) (inflight : List Pending)
    (hold : ∀ pd ∈ inflight, Sound pd)
    (hnew : ∀ pd, (exec p app).2 = .suspended pd → Sound pd) :
    ∀ pd ∈ (dispatch p app inflight).inflight, Sound pd := by
  unfold dispatch
  cases h : exec p app with
  | mk s r =>
    rw [h] at hnew
    cases r with
    | finished => exact hold
    | escaped e => exact hold
    | suspended pd0 =>
      intro pd hpd
      rcases List.mem_append.mp hpd with hm | hm
      · exact hold pd hm
      · rw [List.mem_singleton] at hm
        subst hm
        exact hnew pd rfl

theorem arrayFilter_mem (callback : JSValue → Except JSError Bool) (xs view : List JSValue)
    (h : arrayFilter callback xs = .ok view) : ∀ e ∈ view, e ∈ xs := by
  induction xs generalizing view with
  | nil =>
    simp only [arrayFilter] at h
    cases h
    intro e he
    exact he
  | cons x rest ih =>
    simp only [arrayFilter] at h
    cases hx : callback x with
    | error err => rw [hx] at h; cases h
    | ok b =>
      cases hr : arrayFilter callback rest with
      | error err => rw [hx, hr] at h; cases h
      | ok kept =>
        rw [hx, hr] at h
        have hview : view = if b = true then x :: kept else kept := by
          simp only [bind, Except.bind, pure, Except.pure] at h
          cases h
          rfl
        intro e he
        rw [hview] at he
        by_cases hb : b = true
        · rw [if_pos hb] at he
          rcases List.mem_cons.mp he with rfl | hk
          · exact List.mem_cons_self _ _
          · exact List.mem_cons_of_mem _ (ih kept hr e hk)
        · rw [if_neg hb] at he
          exact List.mem_cons_of_mem _ (ih kept hr e he)

/-- Every event of a filtered view that was computed is an object with a string name. -/
theorem filteredEvents_mem_hasName (rt : Runtime) (events : JSValue) (filterName : JSString)
    (view : List JSValue) (h : filteredEvents rt events filterName = .ok view) :
    ∀ e ∈ view, ∃ nm, HasName e nm := by
  cases events with
  | arr xs =>
    intro e he
    have hmem := arrayFilter_mem _ xs view h e he
    have hall := (arrayFilter_ok_iff (nameMatches rt filterName) xs).mp ⟨view, h⟩
    exact (nameMatches_ok_iff rt filterName e).mp (hall e hmem)
  | _ => cases h

theorem invariant_initialClient : Invariant initialClient := by
  obtain ⟨pd, hpd, hlist⟩ := exec_fetchEvents initialState
  unfold initialClient
  rw [dispatch_suspended _ _ _ _ _ hpd]
  refine ⟨?_, ?_⟩
  · intro pd' hmem
    have : pd' = pd := by simpa using hmem
    rw [this]
    exact listPending_sound pd hlist
  · intro h
    cases h

theorem invariant_step (rt : Runtime) (c : Client) (t : Transition)
    (hinv : Invariant c) (hen : Enabled rt c t) : Invariant (step rt c t) := by
  obtain ⟨hsound, hbuf⟩ := hinv
  have happend : ∀ pd0, Sound pd0 → ∀ pd ∈ c.inflight ++ [pd0], Sound pd := by
    intro pd0 h0 pd hpd
    rcases List.mem_append.mp hpd with hm | hm
    · exact hsound pd hm
    · rw [List.mem_singleton] at hm
      rw [hm]
      exact h0
  cases t with
  | inputChange name value => exact ⟨hsound, hbuf⟩
  | filterChange value => exact ⟨hsound, hbuf⟩
  | submit =>
    obtain ⟨pd, hpd, hs, _⟩ := exec_handleAddEvent c.app.newEvent c.app
    show Invariant (dispatch (handleAddEvent c.app.newEvent) c.app c.inflight)
    rw [dispatch_suspended _ _ _ _ _ hpd]
    exact ⟨happend pd hs, hbuf⟩
  | deleteClick event =>
    cases hid : getProp event idKey with
    | error e =>
      have : step rt c (.deleteClick event) = c := by simp only [step, hid]
      rw [this]
      exact ⟨hsound, hbuf⟩
    | ok id =>
      obtain ⟨pd, hpd, hs, _⟩ := exec_handleDeleteEvent rt id c.app
      have : step rt c (.deleteClick event) =
          dispatch (handleDeleteEvent rt id) c.app c.inflight := by simp only [step, hid]
      rw [this, dispatch_suspended _ _ _ _ _ hpd]
      exact ⟨happend pd hs, hbuf⟩
  | updateClick event =>
    obtain ⟨view, hview, hmem⟩ := hen
    obtain ⟨nm, kvs, hobj, _⟩ := filteredEvents_mem_hasName rt _ _ view hview event hmem
    exact ⟨hsound, fun _ => ⟨kvs, hobj⟩⟩
  | editName value => exact ⟨hsound, fun _ => ⟨_, rfl⟩⟩
  | cancel =>
    refine ⟨hsound, fun h => ?_⟩
    cases h
  | save =>
    obtain ⟨kvs, hkvs⟩ := hbuf hen
    have hid : getProp c.app.currentEvent idKey = .ok (lookup idKey kvs) := by
      rw [hkvs]; rfl
    obtain ⟨pd, hpd, hs, _⟩ := exec_handleUpdateEvent rt c.app.currentEvent _ hid c.app
    show Invariant (dispatch (handleUpdateEvent rt c.app.currentEvent) c.app c.inflight)
    rw [dispatch_suspended _ _ _ _ _ hpd]
    exact ⟨happend pd hs, hbuf⟩
  | response i outcome =>
    cases hget : c.inflight.get? i with
    | none =>
      have : step rt c (.response i outcome) = c := by simp only [step, hget]
      rw [this]
      exact ⟨hsound, hbuf⟩
    | some pd =>
      have hstep : step rt c (.response i outcome) =
          dispatch (pd.k outcome) c.app (c.inflight.eraseIdx i) := by simp only [step, hget]
      have hpd : Sound pd := hsound pd (List.get?_mem hget)
      rw [hstep]
      refine ⟨?_, ?_⟩
      · apply dispatch_inflight_sound
        · intro pd' hmem
          exact hsound pd' (List.mem_of_mem_eraseIdx hmem)
        · intro pd' hsusp
          exact listPending_sound pd' (hpd.2.2.2 outcome c.app pd' hsusp)
      · rw [dispatch_app]
        intro hopen
        obtain ⟨hcur, hflag⟩ := hpd.2.2.1 outcome c.app
        rw [hcur]
        exact hbuf (hflag hopen)

theorem invariant_of_reachable (rt : Runtime) (c : Client) (h : Reachable rt c) :
    Invariant c := by
  induction h with
  | mount => exact invariant_initialClient
  | step c t _ hen ih => exact invariant_step rt c t ih hen

/-! ## The error string -/

/-- C8: in a reachable client whose error string is set and not empty, after
every transition the error string is still set and not empty; it is the same
string after every transition that is not the failure of a request (so after
every success outcome and every change of the draft, the filter text or the
edit buffer), and after the failure of a request it is the message of that
failure. -/
theorem error_never_cleared (rt : Runtime) (c : Client) (hreach : Reachable rt c)
    (msg : JSString) (herr : c.app.error = some msg) (hne : msg ≠ [])
    (t : Transition) (hen : Enabled rt c t) :
    (∃ msg', (step rt c t).app.error = some msg' ∧ msg' ≠ []) ∧
    ((∀ i, t ≠ .response i .rejected) → (step rt c t).app.error = some msg) ∧
    (∀ i pd, t = .response i .rejected → c.inflight.get? i = some pd →
      (step rt c t).app.error = some (failureMessage pd.req)) := by
  obtain ⟨hsound, hbuf⟩ := invariant_of_reachable rt c hreach
  cases t with
  | inputChange name value =>
    exact ⟨⟨msg, herr, hne⟩, fun _ => herr, fun i pd h => by cases h⟩
  | filterChange value =>
    exact ⟨⟨msg, herr, hne⟩, fun _ => herr, fun i pd h => by cases h⟩
  | updateClick event =>
    exact ⟨⟨msg, herr, hne⟩, fun _ => herr, fun i pd h => by cases h⟩
  | editName value =>
    exact ⟨⟨msg, herr, hne⟩, fun _ => herr, fun i pd h => by cases h⟩
  | cancel =>
    exact ⟨⟨msg, herr, hne⟩, fun _ => herr, fun i pd h => by cases h⟩
  | submit =>
    obtain ⟨pd, hpd, _, _⟩ := exec_handleAddEvent c.app.newEvent c.app
    have hstep : (step rt c .submit).app.error = some msg := by
      show (dispatch (handleAddEvent c.app.newEvent) c.app c.inflight).app.error = some msg
      rw [dispatch_suspended _ _ _ _ _ hpd]
      exact herr
    exact ⟨⟨msg, hstep, hne⟩, fun _ => hstep, fun i pd h => by cases h⟩
  | deleteClick event =>
    have hstep : (step rt c (.deleteClick event)).app.error = some msg := by
      cases hid : getProp event idKey with
      | error e =>
        have : step rt c (.deleteClick event) = c := by simp only [step, hid]
        rw [this]
        exact herr
      | ok id =>
        obtain ⟨pd, hpd, _, _⟩ := exec_handleDeleteEvent rt id c.app
        have : step rt c (.deleteClick event) =
            dispatch (handleDeleteEvent rt id) c.app c.inflight := by simp only [step, hid]
        rw [this, dispatch_suspended _ _ _ _ _ hpd]
        exact herr
    exact ⟨⟨msg, hstep, hne⟩, fun _ => hstep, fun i pd h => by cases h⟩
  | save =>
    obtain ⟨kvs, hkvs⟩ := hbuf hen
    have hid : getProp c.app.currentEvent idKey = .ok (lookup idKey kvs) := by
      rw [hkvs]; rfl
    obtain ⟨pd, hpd, _, _⟩ := exec_handleUpdateEvent rt c.app.currentEvent _ hid c.app
    have hstep : (step rt c .save).app.error = some msg := by
      show (dispatch (handleUpdateEvent rt c.app.currentEvent) c.app c.inflight).app.error
        = some msg
      rw [dispatch_suspended _ _ _ _ _ hpd]
      exact herr
    exact ⟨⟨msg, hstep, hne⟩, fun _ => hstep, fun i pd h => by cases h⟩
  | response i outcome =>
    have hlt : i < c.inflight.length := hen
    obtain ⟨pd, hget⟩ : ∃ pd, c.inflight.get? i = some pd :=
      ⟨c.inflight.get ⟨i, hlt⟩, List.get?_eq_get hlt⟩
    have hstep : (step rt c (.response i outcome)).app =
        (exec (pd.k outcome) c.app).1 := by
      have : step rt c (.response i outcome) =
          dispatch (pd.k outcome) c.app (c.inflight.eraseIdx i) := by simp only [step, hget]
      rw [this, dispatch_app]
    have hpd : Sound pd := hsound pd (List.get?_mem hget)
    rw [hstep]
    cases outcome with
    | resolved data =>
      have hkeep : (exec (pd.k (.resolved data)) c.app).1.error = some msg := by
        rw [hpd.1 data c.app]; exact herr
      exact ⟨⟨msg, hkeep, hne⟩, fun _ => hkeep, fun j pd' h => by cases h⟩
    | rejected =>
      have hset := hpd.2.1 c.app
      refine ⟨⟨_, hset, failureMessage_ne_nil pd.req⟩, fun h => absurd rfl (h i), ?_⟩
      intro j pd' hj hget'
      cases hj
      rw [hget] at hget'
      cases hget'
      exact hset

/-- Witness of C8: the first List request fails, the user submits the draft, and the
Create request fails; the load-failure message is replaced by the add-failure message. -/
theorem error_never_cleared_witness :
    Reachable asciiRuntime submittedClient ∧
    submittedClient.app.error = some loadErrorMessage ∧
    loadErrorMessage ≠ [] ∧
    Enabled asciiRuntime submittedClient (.response 0 .rejected) ∧
    (∃ pd, submittedClient.inflight.get? 0 = some pd ∧ pd.req = .post API_URL emptyDraft) ∧
    (step asciiRuntime submittedClient (.response 0 .rejected)).app.error
      = some addErrorMessage :=
  have h0 : Enabled asciiRuntime initialClient (.response 0 .rejected) :=
    (Nat.zero_lt_one : 0 < 1)
  have hreach : Reachable asciiRuntime submittedClient :=
    Reachable.step _ .submit (Reachable.step _ (.response 0 .rejected) Reachable.mount h0) trivial
  have hen : Enabled asciiRuntime submittedClient (.response 0 .rejected) :=
    (Nat.zero_lt_one : 0 < 1)
  ⟨hreach, rfl, loadErrorMessage_ne_nil, hen, ⟨_, rfl, rfl⟩,
    (error_never_cleared asciiRuntime submittedClient hreach loadErrorMessage rfl
      loadErrorMessage_ne_nil (.response 0 .rejected) hen).2.2 0 _ rfl rfl⟩

end TRIScore
